import Mathlib

/-!
Verification of the streaming response decoder of
`crates/g3-providers/src/openrouter.rs` (`parse_streaming_response` and its
helper structures).  The decoder consumes a stream of byte fragments in an
SSE-style wire format and delivers `CompletionChunk` values (or one failure
result) to a consumer channel.

Modelling conventions:
  * Rust `String`/`&str` values are represented as `List Char`; raw transport
    bytes as `List Nat` (each `< 256`).
  * The consumer channel `tx : mpsc::Sender<Result<CompletionChunk>>` is
    modelled as the ordered list of items sent; error payloads (`anyhow`
    errors, `reqwest` errors) are opaque and modelled by `Unit`.
  * The consumer is assumed attached for the whole run: `tx.send` never fails.
    (Consumer disconnect is cooperative early termination in the source and is
    outside the claims settled here.)
  * `serde_json` is modelled by an executable JSON parser (`parseJson`) and by
    deserializers that mirror the `#[derive(Deserialize)]` structures of the
    source (unknown fields ignored, missing `Option` fields become `none`,
    type mismatches fail the whole parse).
  * `std::str::from_utf8` is modelled by `utf8Decode`, a full UTF-8 validator
    and decoder (rejecting overlong forms, surrogates and out-of-range
    scalars, exactly as Rust does).
-/

set_option maxRecDepth 8000

namespace G3.OpenRouter

/-! ## Data model (mirrors the Rust structs) -/

/-- Token-usage snapshot; the Rust `Usage` has `u32` fields, modelled as `Nat`
and range-checked at deserialization. -/
structure Usage where
  prompt_tokens : Nat
  completion_tokens : Nat
  total_tokens : Nat
deriving Repr, DecidableEq

/-- JSON value, modelling `serde_json::Value`.  Numbers keep serde_json's
distinction between integer-lexeme numbers (`numI`, stored as `u64`/`i64` by
serde) and float-typed numbers (`numF m e`, value `m * 10 ^ e`). -/
inductive Json where
  | null
  | bool (b : Bool)
  | numI (n : Int)
  | numF (mant : Int) (ex : Int)
  | str (s : List Char)
  | arr (elems : List Json)
  | obj (fields : List (List Char × Json))
deriving Repr

/-- A finalized tool call (crate-level `ToolCall { id, tool, args }`). -/
structure ToolCall where
  id : List Char
  tool : List Char
  args : Json
deriving Repr

/-- The unit delivered to the consumer (crate-level `CompletionChunk`). -/
structure CompletionChunk where
  content : List Char
  finished : Bool
  tool_calls : Option (List ToolCall)
  usage : Option Usage
deriving Repr

/-- Streaming tool-call accumulator (`OpenRouterStreamingToolCall`,
`#[derive(Default)]`). -/
structure OpenRouterStreamingToolCall where
  id : Option (List Char)
  name : Option (List Char)
  arguments : List Char
deriving Repr

/-- `Default::default()` for the streaming tool-call accumulator. -/
def defaultStreamingToolCall : OpenRouterStreamingToolCall :=
  ⟨none, none, []⟩

/-- `OpenRouterDeltaFunction { name: Option<String>, arguments: Option<String> }`. -/
structure OpenRouterDeltaFunction where
  name : Option (List Char)
  arguments : Option (List Char)
deriving Repr

/-- `OpenRouterDeltaToolCall { index: Option<usize>, id, function }`. -/
structure OpenRouterDeltaToolCall where
  index : Option Nat
  id : Option (List Char)
  function : Option OpenRouterDeltaFunction
deriving Repr

/-- `OpenRouterDelta { content: Option<String>, tool_calls: Option<Vec<..>> }`. -/
structure OpenRouterDelta where
  content : Option (List Char)
  tool_calls : Option (List OpenRouterDeltaToolCall)
deriving Repr

/-- `OpenRouterStreamChoice { delta }`. -/
structure OpenRouterStreamChoice where
  delta : OpenRouterDelta
deriving Repr

/-- `OpenRouterStreamChunk { choices: Vec<..>, usage: Option<OpenRouterUsage> }`. -/
structure OpenRouterStreamChunk where
  choices : List OpenRouterStreamChoice
  usage : Option Usage
deriving Repr

/-! ## UTF-8 decoding (model of `std::str::from_utf8`) -/

/-- Is `b` a UTF-8 continuation byte (`0x80 ..= 0xBF`)? -/
def isContByte (b : Nat) : Bool := 0x80 ≤ b && b ≤ 0xBF

/-- Decode one UTF-8 scalar value from the front of a byte list, returning the
character and the remaining bytes.  Follows the byte-range table of RFC 3629
(as enforced by `std::str::from_utf8`): no overlong encodings, no surrogate
code points, nothing above `U+10FFFF`. -/
def utf8DecodeOne : List Nat → Option (Char × List Nat)
  | [] => none
  | b :: rest =>
    if b ≤ 0x7F then some (Char.ofNat b, rest)
    else if 0xC2 ≤ b && b ≤ 0xDF then
      match rest with
      | b2 :: r =>
        if isContByte b2 then
          some (Char.ofNat ((b - 0xC0) * 0x40 + (b2 - 0x80)), r)
        else none
      | [] => none
    else if b = 0xE0 then
      match rest with
      | b2 :: b3 :: r =>
        if (0xA0 ≤ b2 && b2 ≤ 0xBF) && isContByte b3 then
          some (Char.ofNat ((b - 0xE0) * 0x1000 + (b2 - 0x80) * 0x40 + (b3 - 0x80)), r)
        else none
      | _ => none
    else if (0xE1 ≤ b && b ≤ 0xEC) || b = 0xEE || b = 0xEF then
      match rest with
      | b2 :: b3 :: r =>
        if isContByte b2 && isContByte b3 then
          some (Char.ofNat ((b - 0xE0) * 0x1000 + (b2 - 0x80) * 0x40 + (b3 - 0x80)), r)
        else none
      | _ => none
    else if b = 0xED then
      match rest with
      | b2 :: b3 :: r =>
        if (0x80 ≤ b2 && b2 ≤ 0x9F) && isContByte b3 then
          some (Char.ofNat ((b - 0xE0) * 0x1000 + (b2 - 0x80) * 0x40 + (b3 - 0x80)), r)
        else none
      | _ => none
    else if b = 0xF0 then
      match rest with
      | b2 :: b3 :: b4 :: r =>
        if (0x90 ≤ b2 && b2 ≤ 0xBF) && (isContByte b3 && isContByte b4) then
          some (Char.ofNat ((b - 0xF0) * 0x40000 + (b2 - 0x80) * 0x1000 +
                 (b3 - 0x80) * 0x40 + (b4 - 0x80)), r)
        else none
      | _ => none
    else if 0xF1 ≤ b && b ≤ 0xF3 then
      match rest with
      | b2 :: b3 :: b4 :: r =>
        if isContByte b2 && (isContByte b3 && isContByte b4) then
          some (Char.ofNat ((b - 0xF0) * 0x40000 + (b2 - 0x80) * 0x1000 +
                 (b3 - 0x80) * 0x40 + (b4 - 0x80)), r)
        else none
      | _ => none
    else if b = 0xF4 then
      match rest with
      | b2 :: b3 :: b4 :: r =>
        if (0x80 ≤ b2 && b2 ≤ 0x8F) && (isContByte b3 && isContByte b4) then
          some (Char.ofNat ((b - 0xF0) * 0x40000 + (b2 - 0x80) * 0x1000 +
                 (b3 - 0x80) * 0x40 + (b4 - 0x80)), r)
        else none
      | _ => none
    else none

set_option maxHeartbeats 2000000 in
theorem utf8DecodeOne_shrink {l : List Nat} {c : Char} {r : List Nat}
    (h : utf8DecodeOne l = some (c, r)) : r.length < l.length := by
  rcases l with _ | ⟨b, _ | ⟨b2, _ | ⟨b3, _ | ⟨b4, rest⟩⟩⟩⟩ <;>
    simp only [utf8DecodeOne] at h
  all_goals repeat' split at h
  all_goals first
    | exact Option.noConfusion h
    | (simp only [Option.some.injEq, Prod.mk.injEq] at h
       obtain ⟨-, h2⟩ := h
       subst h2
       simp only [List.length_cons, List.length_nil]
       omega)

/-- Fueled repetition of `utf8DecodeOne` (structural recursion, so that the
kernel can evaluate it). -/
def utf8DecodeAux : Nat → List Nat → Option (List Char)
  | _, [] => some []
  | 0, _ :: _ => none
  | fuel + 1, b :: rest =>
    match utf8DecodeOne (b :: rest) with
    | some (c, r) => (utf8DecodeAux fuel r).map (fun cs => c :: cs)
    | none => none

/-- Decode a whole byte list as UTF-8 text; `none` on any invalid byte
sequence (the `Err` case of `std::str::from_utf8`).  Fuel `l.length` always
suffices since every step consumes at least one byte. -/
def utf8Decode (l : List Nat) : Option (List Char) := utf8DecodeAux l.length l

theorem utf8Decode_nil : utf8Decode [] = some [] := rfl

theorem utf8DecodeAux_fuel (n : Nat) :
    ∀ (m : Nat) (l : List Nat), l.length ≤ n → l.length ≤ m →
      utf8DecodeAux n l = utf8DecodeAux m l := by
  induction n with
  | zero =>
    intro m l hn _
    have hl : l = [] := List.length_eq_zero.mp (Nat.le_zero.mp hn)
    subst hl
    cases m <;> rfl
  | succ n ih =>
    intro m l hn hm
    cases l with
    | nil => cases m <;> rfl
    | cons b rest =>
      cases m with
      | zero => simp at hm
      | succ m2 =>
        cases hd : utf8DecodeOne (b :: rest) with
        | none => simp only [utf8DecodeAux, hd]
        | some cr =>
          obtain ⟨c, r⟩ := cr
          have hlt := utf8DecodeOne_shrink hd
          simp only [List.length_cons] at hlt hn hm
          simp only [utf8DecodeAux, hd]
          rw [ih m2 r (by omega) (by omega)]

theorem utf8Decode_cons (b : Nat) (rest : List Nat) :
    utf8Decode (b :: rest) =
      match utf8DecodeOne (b :: rest) with
      | some (c, r) => (utf8Decode r).map (fun cs => c :: cs)
      | none => none := by
  show utf8DecodeAux (b :: rest).length (b :: rest) = _
  cases hd : utf8DecodeOne (b :: rest) with
  | none => simp only [List.length_cons, utf8DecodeAux, hd]
  | some cr =>
    obtain ⟨c, r⟩ := cr
    have hlt := utf8DecodeOne_shrink hd
    simp only [List.length_cons] at hlt
    simp only [List.length_cons, utf8DecodeAux, hd]
    rw [utf8DecodeAux_fuel rest.length r.length r (by omega) (Nat.le_refl _)]
    rfl

set_option maxHeartbeats 1000000 in
theorem utf8DecodeOne_append {l : List Nat} {c : Char} {r : List Nat}
    (h : utf8DecodeOne l = some (c, r)) (t : List Nat) :
    utf8DecodeOne (l ++ t) = some (c, r ++ t) := by
  rcases l with _ | ⟨b, _ | ⟨b2, _ | ⟨b3, _ | ⟨b4, rest⟩⟩⟩⟩ <;>
    simp only [utf8DecodeOne] at h <;>
    repeat' split at h
  all_goals first
    | exact Option.noConfusion h
    | (simp only [Option.some.injEq, Prod.mk.injEq] at h
       obtain ⟨h1, h2⟩ := h
       subst h1
       subst h2
       simp only [List.cons_append, List.nil_append, utf8DecodeOne]
       repeat' split
       all_goals first | rfl | contradiction | (exfalso; omega))

theorem utf8Decode_append_aux (n : Nat) :
    ∀ (a b : List Nat) (x : List Char), a.length ≤ n → utf8Decode a = some x →
      utf8Decode (a ++ b) = (utf8Decode b).map (fun y => x ++ y) := by
  induction n with
  | zero =>
    intro a b x hlen h
    have ha : a = [] := List.length_eq_zero.mp (Nat.le_zero.mp hlen)
    subst ha
    simp only [utf8Decode_nil, Option.some.injEq] at h
    subst h
    simp only [List.nil_append]
    cases utf8Decode b <;> simp
  | succ n ih =>
    intro a b x hlen h
    match a with
    | [] =>
      simp only [utf8Decode_nil, Option.some.injEq] at h
      subst h
      simp only [List.nil_append]
      cases utf8Decode b <;> simp
    | bb :: rest =>
      rw [utf8Decode_cons] at h
      cases hd : utf8DecodeOne (bb :: rest) with
      | none => rw [hd] at h; exact Option.noConfusion h
      | some cr =>
        obtain ⟨c, r⟩ := cr
        rw [hd] at h
        have h' : (utf8Decode r).map (fun cs => c :: cs) = some x := h
        cases hr : utf8Decode r with
        | none => rw [hr] at h'; exact Option.noConfusion h'
        | some xs =>
          rw [hr] at h'
          simp only [Option.map_some', Option.some.injEq] at h'
          have hlt : r.length < (bb :: rest).length := utf8DecodeOne_shrink hd
          have hrlen : r.length ≤ n := by
            simp only [List.length_cons] at hlt hlen
            omega
          have ihr := ih r b xs hrlen hr
          have hd2 : utf8DecodeOne (bb :: (rest ++ b)) = some (c, r ++ b) :=
            utf8DecodeOne_append hd b
          have goalEq : utf8Decode (bb :: (rest ++ b)) =
              (utf8Decode (r ++ b)).map (fun cs => c :: cs) := by
            rw [utf8Decode_cons, hd2]
          rw [show (bb :: rest) ++ b = bb :: (rest ++ b) from rfl, goalEq, ihr]
          cases utf8Decode b <;> simp [← h']

theorem utf8Decode_append (a b : List Nat) (x : List Char)
    (h : utf8Decode a = some x) :
    utf8Decode (a ++ b) = (utf8Decode b).map (fun y => x ++ y) :=
  utf8Decode_append_aux a.length a b x (Nat.le_refl _) h

/-- Concatenating two individually valid UTF-8 byte fragments decodes to the
concatenation of their decodings. -/
theorem utf8Decode_append_valid {a b : List Nat} {x y : List Char}
    (ha : utf8Decode a = some x) (hb : utf8Decode b = some y) :
    utf8Decode (a ++ b) = some (x ++ y) := by
  rw [utf8Decode_append a b x ha, hb]
  rfl

/-! ## Line framing (the byte-buffer / newline-splitting loop) -/

/-- The Unicode `White_Space` property, as used by Rust's `str::trim`. -/
def rustIsWhitespace (c : Char) : Bool :=
  let n := c.toNat
  n = 0x9 || n = 0xA || n = 0xB || n = 0xC || n = 0xD || n = 0x20 ||
  n = 0x85 || n = 0xA0 || n = 0x1680 || (0x2000 ≤ n && n ≤ 0x200A) ||
  n = 0x2028 || n = 0x2029 || n = 0x202F || n = 0x205F || n = 0x3000

/-- Drop leading whitespace. -/
def ltrimWs : List Char → List Char
  | [] => []
  | c :: cs => if rustIsWhitespace c then ltrimWs cs else c :: cs

/-- `str::trim`: drop leading and trailing whitespace. -/
def trimWs (s : List Char) : List Char :=
  ((ltrimWs s.reverse).reverse |> ltrimWs)

/-- Split a character buffer into the complete (newline-terminated) lines and
the trailing partial line, modelling the
`while let Some(line_end) = buffer.find('\n')` loop of
`parse_streaming_response` (lines are *not* yet trimmed here; the `\n` is
consumed). -/
def extractLines : List Char → List (List Char) × List Char
  | [] => ([], [])
  | c :: cs =>
    if c = '\n' then
      ([] :: (extractLines cs).1, (extractLines cs).2)
    else
      match extractLines cs with
      | ([], r) => ([], c :: r)
      | (l :: ls, r) => ((c :: l) :: ls, r)

theorem extractLines_cons_nl (cs : List Char) :
    extractLines ('\n' :: cs) =
      ([] :: (extractLines cs).1, (extractLines cs).2) := by
  rw [extractLines, if_pos rfl]

theorem extractLines_cons_other {c : Char} (hc : ¬c = '\n') (cs : List Char) :
    extractLines (c :: cs) =
      match extractLines cs with
      | ([], r) => ([], c :: r)
      | (l :: ls, r) => ((c :: l) :: ls, r) := by
  rw [extractLines, if_neg hc]

theorem extractLines_fst_nil : ∀ {s : List Char},
    (extractLines s).1 = [] → (extractLines s).2 = s := by
  intro s
  induction s with
  | nil => intro _; rfl
  | cons c cs ih =>
    intro h
    by_cases hc : c = '\n'
    · subst hc
      rw [extractLines_cons_nl] at h
      simp at h
    · rw [extractLines_cons_other hc] at h ⊢
      rcases hcs : extractLines cs with ⟨_ | ⟨l, ls⟩, r⟩
      · have h2 : r = cs := by
          have h3 := ih (by rw [hcs])
          rw [hcs] at h3
          exact h3
        simp [h2]
      · rw [hcs] at h
        simp at h

theorem extractLines_append (a b : List Char) :
    extractLines (a ++ b) =
      ((extractLines a).1 ++ (extractLines ((extractLines a).2 ++ b)).1,
       (extractLines ((extractLines a).2 ++ b)).2) := by
  induction a with
  | nil => simp [extractLines]
  | cons c cs ih =>
    by_cases hc : c = '\n'
    · subst hc
      rw [List.cons_append, extractLines_cons_nl (cs ++ b), extractLines_cons_nl cs, ih]
      simp
    · rcases hcs : extractLines cs with ⟨_ | ⟨l, ls⟩, r⟩
      · have h2 : r = cs := by
          have h3 := extractLines_fst_nil (s := cs) (by rw [hcs])
          rw [hcs] at h3
          exact h3
        have hccs : extractLines (c :: cs) = ([], c :: cs) := by
          rw [extractLines_cons_other hc, hcs, h2]
        rw [List.cons_append, hccs]
        simp
      · have hccs : extractLines (c :: cs) = ((c :: l) :: ls, r) := by
          rw [extractLines_cons_other hc, hcs]
        rw [List.cons_append, extractLines_cons_other hc (cs ++ b), ih, hcs, hccs]
        simp [List.cons_append]

/-! ## JSON parsing (model of `serde_json::from_str::<serde_json::Value>`) -/

/-- JSON insignificant whitespace. -/
def jIsWs (c : Char) : Bool := c == ' ' || c == '\t' || c == '\n' || c == '\r'

/-- Skip leading JSON whitespace. -/
def jSkipWs : List Char → List Char
  | [] => []
  | c :: cs => if jIsWs c then jSkipWs cs else c :: cs

/-- Value of a hexadecimal digit. -/
def hexVal : Char → Option Nat := fun c =>
  if '0'.toNat ≤ c.toNat && c.toNat ≤ '9'.toNat then some (c.toNat - '0'.toNat)
  else if 'a'.toNat ≤ c.toNat && c.toNat ≤ 'f'.toNat then some (c.toNat - 'a'.toNat + 10)
  else if 'A'.toNat ≤ c.toNat && c.toNat ≤ 'F'.toNat then some (c.toNat - 'A'.toNat + 10)
  else none

/-- Value of a four-digit hex escape. -/
def hex4 (a b c d : Char) : Option Nat := do
  let va ← hexVal a
  let vb ← hexVal b
  let vc ← hexVal c
  let vd ← hexVal d
  some (((va * 16 + vb) * 16 + vc) * 16 + vd)

/-- Parse the body of a JSON string (the opening quote already consumed),
returning the decoded characters and the remaining input.  Handles the JSON
escape sequences including surrogate pairs; rejects raw control characters
and lone surrogates, as `serde_json` does. -/
def parseJStringBody : List Char → Option (List Char × List Char)
  | [] => none
  | c :: cs =>
    if c = '"' then some ([], cs)
    else if c = '\\' then
      match cs with
      | [] => none
      | e :: cs2 =>
        if e = '"' then (parseJStringBody cs2).map (fun p => ('"' :: p.1, p.2))
        else if e = '\\' then (parseJStringBody cs2).map (fun p => ('\\' :: p.1, p.2))
        else if e = '/' then (parseJStringBody cs2).map (fun p => ('/' :: p.1, p.2))
        else if e = 'b' then (parseJStringBody cs2).map (fun p => (Char.ofNat 0x8 :: p.1, p.2))
        else if e = 'f' then (parseJStringBody cs2).map (fun p => (Char.ofNat 0xC :: p.1, p.2))
        else if e = 'n' then (parseJStringBody cs2).map (fun p => ('\n' :: p.1, p.2))
        else if e = 'r' then (parseJStringBody cs2).map (fun p => ('\r' :: p.1, p.2))
        else if e = 't' then (parseJStringBody cs2).map (fun p => ('\t' :: p.1, p.2))
        else if e = 'u' then
          match cs2 with
          | h1 :: h2 :: h3 :: h4 :: cs3 =>
            match hex4 h1 h2 h3 h4 with
            | none => none
            | some v =>
              if v < 0xD800 || 0xE000 ≤ v then
                (parseJStringBody cs3).map (fun p => (Char.ofNat v :: p.1, p.2))
              else if v < 0xDC00 then
                -- high surrogate: must be followed by a low surrogate escape
                match cs3 with
                | '\\' :: 'u' :: g1 :: g2 :: g3 :: g4 :: cs4 =>
                  match hex4 g1 g2 g3 g4 with
                  | none => none
                  | some w =>
                    if 0xDC00 ≤ w && w < 0xE000 then
                      (parseJStringBody cs4).map (fun p =>
                        (Char.ofNat (0x10000 + (v - 0xD800) * 0x400 + (w - 0xDC00)) :: p.1, p.2))
                    else none
                | _ => none
              else none
          | _ => none
        else none
    else if c.toNat < 0x20 then none
    else (parseJStringBody cs).map (fun p => (c :: p.1, p.2))

/-- Decimal digit value. -/
def digitVal : Char → Option Nat := fun c =>
  if '0'.toNat ≤ c.toNat && c.toNat ≤ '9'.toNat then some (c.toNat - '0'.toNat) else none

/-- Take a maximal run of decimal digits. -/
def takeDigits : List Char → List Nat × List Char
  | [] => ([], [])
  | c :: cs =>
    match digitVal c with
    | some d => ((d :: (takeDigits cs).1), (takeDigits cs).2)
    | none => ([], c :: cs)

/-- Digits to a natural number, most significant first. -/
def digitsToNat (ds : List Nat) : Nat := ds.foldl (fun a d => a * 10 + d) 0

/-- Parse a JSON number per RFC 8259 grammar (`-?int frac? exp?`, no leading
zeros, a fraction/exponent must be non-empty).  An integer lexeme (no
fraction, no exponent) becomes `Json.numI`; otherwise `Json.numF`, matching
serde_json's integer-versus-float distinction. -/
def parseJNumber (s : List Char) : Option (Json × List Char) :=
  let signRes : Bool × List Char := match s with
    | '-' :: r => (true, r)
    | _ => (false, s)
  let neg := signRes.1
  let s1 := signRes.2
  match takeDigits s1 with
  | ([], _) => none
  | (d :: ds, r1) =>
    if d = 0 && ds ≠ [] then none
    else
      let intPart : Nat := digitsToNat (d :: ds)
      let fracStep : Option (List Nat × List Char × Bool) :=
        match r1 with
        | '.' :: r =>
          match takeDigits r with
          | ([], _) => none
          | (fs, r2) => some (fs, r2, true)
        | _ => some ([], r1, false)
      match fracStep with
      | none => none
      | some (fs, r2, hasFrac) =>
        let expStep : Option (Int × List Char × Bool) :=
          match r2 with
          | e :: r3 =>
            if e = 'e' || e = 'E' then
              let es : Int × List Char := match r3 with
                | '+' :: r => (1, r)
                | '-' :: r => (-1, r)
                | _ => (1, r3)
              match takeDigits es.2 with
              | ([], _) => none
              | (xs, r5) => some (es.1 * (digitsToNat xs : Int), r5, true)
            else some (0, r2, false)
          | [] => some (0, r2, false)
        match expStep with
        | none => none
        | some (ex, rest, hasExp) =>
          if hasFrac || hasExp then
            let mant : Int :=
              (if neg then (-1 : Int) else 1) *
                ((intPart * 10 ^ fs.length + digitsToNat fs : Nat) : Int)
            some (Json.numF mant (ex - (fs.length : Int)), rest)
          else
            some (Json.numI ((if neg then (-1 : Int) else 1) * (intPart : Int)), rest)

mutual

/-- Fueled recursive-descent JSON value parser: parses one value, with
leading whitespace allowed. -/
def parseJValue : Nat → List Char → Option (Json × List Char)
  | 0, _ => none
  | fuel + 1, s =>
    match jSkipWs s with
    | 'n' :: 'u' :: 'l' :: 'l' :: r => some (Json.null, r)
    | 't' :: 'r' :: 'u' :: 'e' :: r => some (Json.bool true, r)
    | 'f' :: 'a' :: 'l' :: 's' :: 'e' :: r => some (Json.bool false, r)
    | '"' :: r => (parseJStringBody r).map (fun p => (Json.str p.1, p.2))
    | '[' :: r =>
      (match jSkipWs r with
       | ']' :: r2 => some (Json.arr [], r2)
       | _ =>
         match parseJArrayTail fuel r with
         | some (xs, rest) => some (Json.arr xs, rest)
         | none => none)
    | '\x7b' :: r =>
      (match jSkipWs r with
       | '\x7d' :: r2 => some (Json.obj [], r2)
       | _ =>
         match parseJObjTail fuel r with
         | some (ms, rest) => some (Json.obj ms, rest)
         | none => none)
    | s1 => parseJNumber s1

/-- Items of a non-empty JSON array (terminating `]` consumed). -/
def parseJArrayTail : Nat → List Char → Option (List Json × List Char)
  | 0, _ => none
  | fuel + 1, s =>
    match parseJValue fuel s with
    | none => none
    | some (v, r) =>
      match jSkipWs r with
      | ',' :: r2 =>
        (match parseJArrayTail fuel r2 with
         | some (vs, rest) => some (v :: vs, rest)
         | none => none)
      | ']' :: r2 => some ([v], r2)
      | _ => none

/-- Members of a non-empty JSON object (terminating `\x7d` consumed). -/
def parseJObjTail : Nat → List Char → Option (List (List Char × Json) × List Char)
  | 0, _ => none
  | fuel + 1, s =>
    match jSkipWs s with
    | '"' :: r =>
      (match parseJStringBody r with
       | none => none
       | some (k, r2) =>
         match jSkipWs r2 with
         | ':' :: r3 =>
           (match parseJValue fuel r3 with
            | none => none
            | some (v, r4) =>
              match jSkipWs r4 with
              | ',' :: r5 =>
                (match parseJObjTail fuel r5 with
                 | some (ms, rest) => some ((k, v) :: ms, rest)
                 | none => none)
              | '\x7d' :: r5 => some ([(k, v)], r5)
              | _ => none)
         | _ => none)
    | _ => none

end

/-- `serde_json::from_str::<Value>`: parse one complete JSON value; only
trailing whitespace may follow.  The fuel `2 * length + 4` is more than the
maximal recursion depth (each nested call consumes at least one character
per two units of fuel). -/
def parseJson (s : List Char) : Option Json :=
  match parseJValue (2 * s.length + 4) s with
  | some (v, r) => if jSkipWs r = [] then some v else none
  | none => none

/-! ## serde deserializers for the streaming wire structures -/

/-- Look a field up in a decoded JSON object (serde visits fields in order;
claims here never involve duplicate keys). -/
def jLookup : List (List Char × Json) → List Char → Option Json
  | [], _ => none
  | (k, v) :: rest, key => if k = key then some v else jLookup rest key

/-- Deserialize a JSON string. -/
def jAsString : Json → Option (List Char)
  | Json.str s => some s
  | _ => none

/-- Deserialize a `u32`: integer-typed number in range. -/
def jAsU32 : Json → Option Nat
  | Json.numI n => if 0 ≤ n && n < 2 ^ 32 then some n.toNat else none
  | _ => none

/-- Deserialize a `usize` (64-bit): integer-typed number in range. -/
def jAsUsize : Json → Option Nat
  | Json.numI n => if 0 ≤ n && n < 2 ^ 64 then some n.toNat else none
  | _ => none

/-- Deserialize a JSON array. -/
def jAsArr : Json → Option (List Json)
  | Json.arr xs => some xs
  | _ => none

/-- serde semantics of an `Option<T>` struct field: a missing field and an
explicit `null` are `none`; a present value must deserialize or the whole
record fails. -/
def optField (fs : List (List Char × Json)) (key : List Char)
    (d : Json → Option α) : Option (Option α) :=
  match jLookup fs key with
  | none => some none
  | some Json.null => some none
  | some v => (d v).map some

/-- serde semantics of a required struct field. -/
def reqField (fs : List (List Char × Json)) (key : List Char)
    (d : Json → Option α) : Option α :=
  (jLookup fs key).bind d

/-- `OpenRouterUsage { prompt_tokens: u32, completion_tokens: u32,
total_tokens: u32 }`. -/
def deserUsage : Json → Option Usage
  | Json.obj fs => do
    let p ← reqField fs ("prompt_tokens".toList) jAsU32
    let c ← reqField fs ("completion_tokens".toList) jAsU32
    let t ← reqField fs ("total_tokens".toList) jAsU32
    some ⟨p, c, t⟩
  | _ => none

/-- `OpenRouterDeltaFunction`. -/
def deserDeltaFunction : Json → Option OpenRouterDeltaFunction
  | Json.obj fs => do
    let n ← optField fs ("name".toList) jAsString
    let a ← optField fs ("arguments".toList) jAsString
    some ⟨n, a⟩
  | _ => none

/-- `OpenRouterDeltaToolCall`. -/
def deserDeltaToolCall : Json → Option OpenRouterDeltaToolCall
  | Json.obj fs => do
    let i ← optField fs ("index".toList) jAsUsize
    let d ← optField fs ("id".toList) jAsString
    let f ← optField fs ("function".toList) deserDeltaFunction
    some ⟨i, d, f⟩
  | _ => none

/-- `OpenRouterDelta`. -/
def deserDelta : Json → Option OpenRouterDelta
  | Json.obj fs => do
    let c ← optField fs ("content".toList) jAsString
    let t ← optField fs ("tool_calls".toList)
      (fun j => (jAsArr j).bind (fun xs => xs.mapM deserDeltaToolCall))
    some ⟨c, t⟩
  | _ => none

/-- `OpenRouterStreamChoice`. -/
def deserStreamChoice : Json → Option OpenRouterStreamChoice
  | Json.obj fs => do
    let d ← reqField fs ("delta".toList) deserDelta
    some ⟨d⟩
  | _ => none

/-- `OpenRouterStreamChunk`. -/
def deserStreamChunk : Json → Option OpenRouterStreamChunk
  | Json.obj fs => do
    let cs ← reqField fs ("choices".toList)
      (fun j => (jAsArr j).bind (fun xs => xs.mapM deserStreamChoice))
    let u ← optField fs ("usage".toList) deserUsage
    some ⟨cs, u⟩
  | _ => none

/-- `serde_json::from_str::<OpenRouterStreamChunk>(data)`. -/
def parseStreamChunk (data : List Char) : Option OpenRouterStreamChunk :=
  (parseJson data).bind deserStreamChunk

/-! ## The streaming decoder (`parse_streaming_response`) -/

/-- One item sent on the consumer channel
(`tx : mpsc::Sender<Result<CompletionChunk>>`); error payloads are opaque. -/
abbrev OutItem := Except Unit CompletionChunk

/-- The mutable accumulators of `parse_streaming_response` other than the
byte buffer: `accumulated_usage` and `current_tool_calls`. -/
structure AccState where
  accumulated_usage : Option Usage
  current_tool_calls : List OpenRouterStreamingToolCall
deriving Repr

/-- `OpenRouterStreamingToolCall::to_tool_call` (source lines 570–582): a
fragment becomes a tool call only when both id and name are set; the
argument buffer is parsed as JSON with `unwrap_or(Value::Null)`. -/
def OpenRouterStreamingToolCall.to_tool_call
    (tc : OpenRouterStreamingToolCall) : Option ToolCall :=
  match tc.id, tc.name with
  | some i, some n => some ⟨i, n, (parseJson tc.arguments).getD Json.null⟩
  | _, _ => none

/-- Construction of the terminal chunk (source lines 215–232, textually
repeated at 311–329): empty content, `finished = true`, the finalized tool
calls (`None` when no fragment was ever created), the accumulated usage. -/
def mkFinalChunk (st : AccState) : CompletionChunk :=
  { content := []
    finished := true
    tool_calls :=
      if st.current_tool_calls.isEmpty then none
      else some (st.current_tool_calls.filterMap
        OpenRouterStreamingToolCall.to_tool_call)
    usage := st.accumulated_usage }

/-- Merge one `OpenRouterDeltaToolCall` into the fragment vector (source
lines 256–283): nothing happens without an index; otherwise the vector is
grown to length `index + 1` with default fragments, then id and name are
overwritten when present and argument text is appended. -/
def mergeDelta (l : List OpenRouterStreamingToolCall)
    (d : OpenRouterDeltaToolCall) : List OpenRouterStreamingToolCall :=
  match d.index with
  | none => l
  | some index =>
    let l1 := l ++ List.replicate (index + 1 - l.length) defaultStreamingToolCall
    let tc := l1.getD index defaultStreamingToolCall
    let tc1 := match d.id with
      | some i => { tc with id := some i }
      | none => tc
    let tc2 := match d.function with
      | some f =>
        let tcA := match f.name with
          | some n => { tc1 with name := some n }
          | none => tc1
        match f.arguments with
        | some a => { tcA with arguments := tcA.arguments ++ a }
        | none => tcA
      | none => tc1
    l1.set index tc2

/-- Handle one choice of a delta event (source lines 240–285): emit an
intermediate chunk when content is present, then merge each tool-call
delta. -/
def handleChoice (acc : List OutItem × List OpenRouterStreamingToolCall)
    (choice : OpenRouterStreamChoice) :
    List OutItem × List OpenRouterStreamingToolCall :=
  let out1 := match choice.delta.content with
    | some c => acc.1 ++ [Except.ok ⟨c, false, none, none⟩]
    | none => acc.1
  let tcs1 := match choice.delta.tool_calls with
    | some ds => ds.foldl mergeDelta acc.2
    | none => acc.2
  (out1, tcs1)

/-- Handle one parsed delta event: all choices in order, then the usage
snapshot overwrite (source lines 238–294). -/
def handleEvent (st : AccState) (ev : OpenRouterStreamChunk) :
    List OutItem × AccState :=
  let r := ev.choices.foldl handleChoice ([], st.current_tool_calls)
  let u := match ev.usage with
    | some u => some u
    | none => st.accumulated_usage
  (r.1, ⟨u, r.2⟩)

/-- Result of processing one logical line (or a list of them):
`cont` keeps streaming, `stop` means the `[DONE]` sentinel fired and the
function returned (the terminal chunk is in the emitted items). -/
inductive LineStep where
  | cont (out : List OutItem) (st : AccState)
  | stop (out : List OutItem) (st : AccState)

/-- `line.strip_prefix("data: ")`. -/
def stripDataTag : List Char → Option (List Char)
  | 'd' :: 'a' :: 't' :: 'a' :: ':' :: ' ' :: r => some r
  | _ => none

/-- The stream-completion sentinel payload. -/
def doneMark : List Char := "[DONE]".toList

/-- Process one (untrimmed) logical line, source lines 203–300: trim; skip
empty lines and lines without the `data: ` marker; on `[DONE]` emit the
terminal chunk and stop; otherwise parse the payload — emitting content
chunks and merging tool calls and usage on success, skipping silently on
parse failure. -/
def handleLine (st : AccState) (rawLine : List Char) : LineStep :=
  let line := trimWs rawLine
  if line = [] then LineStep.cont [] st
  else
    match stripDataTag line with
    | none => LineStep.cont [] st
    | some data =>
      if data = doneMark then
        LineStep.stop [Except.ok (mkFinalChunk st)] st
      else
        match parseStreamChunk data with
        | some ev =>
          let r := handleEvent st ev
          LineStep.cont r.1 r.2
        | none => LineStep.cont [] st

/-- Process a list of complete lines, stopping at the sentinel. -/
def processLines (st : AccState) : List (List Char) → LineStep
  | [] => LineStep.cont [] st
  | l :: ls =>
    match handleLine st l with
    | LineStep.cont out st1 =>
      (match processLines st1 ls with
       | LineStep.cont out2 st2 => LineStep.cont (out ++ out2) st2
       | LineStep.stop out2 st2 => LineStep.stop (out ++ out2) st2)
    | LineStep.stop out st1 => LineStep.stop out st1

/-- The whole mutable state of one streaming run: the byte buffer plus the
accumulators. -/
structure StreamState where
  buffer : List Char
  acc : AccState
deriving Repr

/-- Result of feeding one decoded fragment. -/
inductive FeedStep where
  | cont (out : List OutItem) (st : StreamState)
  | stop (out : List OutItem) (st : StreamState)

/-- Feed decoded fragment text: append to the buffer, split off the complete
lines, process them.  On sentinel stop the Rust function returns and the
buffer is dead; it is normalized to `[]` here. -/
def feedChars (st : StreamState) (s : List Char) : FeedStep :=
  let lr := extractLines (st.buffer ++ s)
  match processLines st.acc lr.1 with
  | LineStep.cont out acc1 => FeedStep.cont out ⟨lr.2, acc1⟩
  | LineStep.stop out acc1 => FeedStep.stop out ⟨[], acc1⟩

/-- Feed one raw byte fragment (source lines 190–199): a fragment that is
not valid UTF-8 is dropped whole (`continue`); otherwise its text goes
through the framer. -/
def feedFragment (st : StreamState) (bytes : List Nat) : FeedStep :=
  match utf8Decode bytes with
  | none => FeedStep.cont [] st
  | some s => feedChars st s

/-- Why a run stopped before the transport was exhausted. -/
inductive StopKind where
  | sentinel
  | transportError
deriving Repr, DecidableEq

/-- Outcome of a (partial) run: the channel items sent, the final state, and
whether/why the loop returned early. -/
structure RunResult where
  out : List OutItem
  st : StreamState
  stop : Option StopKind

/-- The `while let Some(chunk_result) = stream.next().await` loop (source
lines 188–309): `Ok` fragments are framed and processed; on an `Err` the
failure result is sent and the function returns immediately. -/
def feedFrags (st : StreamState) :
    List (Except Unit (List Nat)) → RunResult
  | [] => ⟨[], st, none⟩
  | Except.error _ :: _ =>
    ⟨[Except.error ()], st, some StopKind.transportError⟩
  | Except.ok bytes :: rest =>
    match feedFragment st bytes with
    | FeedStep.cont out st1 =>
      let r := feedFrags st1 rest
      ⟨out ++ r.out, r.st, r.stop⟩
    | FeedStep.stop out st1 => ⟨out, st1, some StopKind.sentinel⟩

/-- The initial state of `parse_streaming_response`. -/
def initState : StreamState := ⟨[], ⟨none, []⟩⟩

/-- `parse_streaming_response`, observed through the consumer channel: the
ordered list of items sent for a given transport fragment sequence.  When
the loop ends without sentinel or error (end-of-stream), the terminal chunk
is sent from the final state (source lines 311–329). -/
def parse_streaming_response
    (frags : List (Except Unit (List Nat))) : List OutItem :=
  let r := feedFrags initState frags
  match r.stop with
  | none => r.out ++ [Except.ok (mkFinalChunk r.st.acc)]
  | some _ => r.out

/-! ## Observation predicates on channel output -/

/-- An intermediate (not terminal, not failure) item. -/
def isUnfinishedOk : OutItem → Bool
  | Except.ok ch => !ch.finished
  | Except.error _ => false

/-- A chunk with `finished = true`. -/
def isFinishedOk : OutItem → Bool
  | Except.ok ch => ch.finished
  | Except.error _ => false

/-- A failure result. -/
def isErrItem : OutItem → Bool
  | Except.ok _ => false
  | Except.error _ => true

/-- Number of terminal chunks among the delivered items. -/
def countFinished (out : List OutItem) : Nat :=
  (out.filter isFinishedOk).length

/-- Number of failure results among the delivered items. -/
def countErrors (out : List OutItem) : Nat :=
  (out.filter isErrItem).length

/-- Every delivered item is an intermediate content chunk. -/
def allUnfinished (out : List OutItem) : Prop :=
  ∀ x ∈ out, isUnfinishedOk x = true

theorem allUnfinished_countFinished {out : List OutItem}
    (h : allUnfinished out) : countFinished out = 0 := by
  have : out.filter isFinishedOk = [] := by
    apply List.filter_eq_nil.mpr
    intro x hx
    have hu := h x hx
    cases x with
    | ok ch => simp [isUnfinishedOk] at hu; simp [isFinishedOk, hu]
    | error e => simp [isFinishedOk]
  simp [countFinished, this]

theorem allUnfinished_countErrors {out : List OutItem}
    (h : allUnfinished out) : countErrors out = 0 := by
  have : out.filter isErrItem = [] := by
    apply List.filter_eq_nil.mpr
    intro x hx
    have hu := h x hx
    cases x with
    | ok ch => simp [isErrItem]
    | error e => simp [isUnfinishedOk] at hu
  simp [countErrors, this]

theorem allUnfinished_append {o1 o2 : List OutItem}
    (h1 : allUnfinished o1) (h2 : allUnfinished o2) :
    allUnfinished (o1 ++ o2) := by
  intro x hx
  rcases List.mem_append.mp hx with h | h
  · exact h1 x h
  · exact h2 x h

/-! ## Output-shape invariants of the decoder -/

theorem handleChoice_out_mono (choices : List OpenRouterStreamChoice) :
    ∀ acc : List OutItem × List OpenRouterStreamingToolCall,
      allUnfinished acc.1 →
      allUnfinished (choices.foldl handleChoice acc).1 := by
  induction choices with
  | nil => intro acc h; exact h
  | cons ch rest ih =>
    intro acc h
    apply ih
    show allUnfinished (handleChoice acc ch).1
    unfold handleChoice
    cases ch.delta.content with
    | none => exact h
    | some c =>
      simp only []
      apply allUnfinished_append h
      intro x hx
      simp at hx
      subst hx
      rfl

theorem handleEvent_out (st : AccState) (ev : OpenRouterStreamChunk) :
    allUnfinished (handleEvent st ev).1 := by
  unfold handleEvent
  exact handleChoice_out_mono ev.choices ([], st.current_tool_calls)
    (by intro x hx; simp at hx)

theorem handleLine_cont_out {st : AccState} {l : List Char}
    {out : List OutItem} {st1 : AccState}
    (h : handleLine st l = LineStep.cont out st1) : allUnfinished out := by
  simp only [handleLine] at h
  split at h
  · simp only [LineStep.cont.injEq] at h
    obtain ⟨h1, -⟩ := h
    subst h1
    intro x hx
    simp at hx
  · split at h
    · simp only [LineStep.cont.injEq] at h
      obtain ⟨h1, -⟩ := h
      subst h1
      intro x hx
      simp at hx
    · split at h
      · exact LineStep.noConfusion h
      · split at h
        · simp only [LineStep.cont.injEq] at h
          obtain ⟨h1, -⟩ := h
          subst h1
          exact handleEvent_out st _
        · simp only [LineStep.cont.injEq] at h
          obtain ⟨h1, -⟩ := h
          subst h1
          intro x hx
          simp at hx

theorem handleLine_stop {st : AccState} {l : List Char}
    {out : List OutItem} {st1 : AccState}
    (h : handleLine st l = LineStep.stop out st1) :
    out = [Except.ok (mkFinalChunk st1)] := by
  simp only [handleLine] at h
  split at h
  · exact LineStep.noConfusion h
  · split at h
    · exact LineStep.noConfusion h
    · split at h
      · simp only [LineStep.stop.injEq] at h
        obtain ⟨h1, h2⟩ := h
        subst h2
        exact h1.symm
      · split at h
        · exact LineStep.noConfusion h
        · exact LineStep.noConfusion h

theorem processLines_cont_out :
    ∀ (ls : List (List Char)) (st : AccState) (out : List OutItem)
      (st1 : AccState),
      processLines st ls = LineStep.cont out st1 → allUnfinished out := by
  intro ls
  induction ls with
  | nil =>
    intro st out st1 h
    simp only [processLines, LineStep.cont.injEq] at h
    obtain ⟨h1, -⟩ := h
    subst h1
    intro x hx
    simp at hx
  | cons l rest ih =>
    intro st out st1 h
    simp only [processLines] at h
    cases hl : handleLine st l with
    | cont o s =>
      simp only [hl] at h
      cases hr : processLines s rest with
      | cont o2 s2 =>
        simp only [hr, LineStep.cont.injEq] at h
        obtain ⟨h1, -⟩ := h
        subst h1
        exact allUnfinished_append (handleLine_cont_out hl) (ih s o2 s2 hr)
      | stop o2 s2 => rw [hr] at h; exact LineStep.noConfusion h
    | stop o s => rw [hl] at h; exact LineStep.noConfusion h

theorem processLines_stop_out :
    ∀ (ls : List (List Char)) (st : AccState) (out : List OutItem)
      (st1 : AccState),
      processLines st ls = LineStep.stop out st1 →
      ∃ pre, out = pre ++ [Except.ok (mkFinalChunk st1)] ∧ allUnfinished pre := by
  intro ls
  induction ls with
  | nil =>
    intro st out st1 h
    simp only [processLines] at h
    exact LineStep.noConfusion h
  | cons l rest ih =>
    intro st out st1 h
    simp only [processLines] at h
    cases hl : handleLine st l with
    | cont o s =>
      simp only [hl] at h
      cases hr : processLines s rest with
      | cont o2 s2 => rw [hr] at h; exact LineStep.noConfusion h
      | stop o2 s2 =>
        simp only [hr, LineStep.stop.injEq] at h
        obtain ⟨h1, h2⟩ := h
        subst h1
        subst h2
        obtain ⟨pre, hpre, hall⟩ := ih s o2 s2 hr
        exact ⟨o ++ pre, by rw [hpre, List.append_assoc],
          allUnfinished_append (handleLine_cont_out hl) hall⟩
    | stop o s =>
      simp only [hl, LineStep.stop.injEq] at h
      obtain ⟨h1, h2⟩ := h
      subst h1
      subst h2
      exact ⟨[], by rw [handleLine_stop hl]; rfl, by intro x hx; simp at hx⟩

theorem mkFinalChunk_finished (st : AccState) :
    (mkFinalChunk st).finished = true := rfl

theorem feedChars_cont_out {st : StreamState} {s : List Char}
    {out : List OutItem} {st1 : StreamState}
    (h : feedChars st s = FeedStep.cont out st1) : allUnfinished out := by
  simp only [feedChars] at h
  cases hp : processLines st.acc (extractLines (st.buffer ++ s)).1 with
  | cont o acc1 =>
    simp only [hp, FeedStep.cont.injEq] at h
    obtain ⟨h1, -⟩ := h
    subst h1
    exact processLines_cont_out _ _ _ _ hp
  | stop o acc1 => rw [hp] at h; exact FeedStep.noConfusion h

theorem feedChars_stop_out {st : StreamState} {s : List Char}
    {out : List OutItem} {st1 : StreamState}
    (h : feedChars st s = FeedStep.stop out st1) :
    ∃ pre, out = pre ++ [Except.ok (mkFinalChunk st1.acc)] ∧ allUnfinished pre := by
  simp only [feedChars] at h
  cases hp : processLines st.acc (extractLines (st.buffer ++ s)).1 with
  | cont o acc1 => rw [hp] at h; exact FeedStep.noConfusion h
  | stop o acc1 =>
    simp only [hp, FeedStep.stop.injEq] at h
    obtain ⟨h1, h2⟩ := h
    subst h1
    subst h2
    exact processLines_stop_out _ _ _ _ hp

theorem feedFragment_cont_out {st : StreamState} {bytes : List Nat}
    {out : List OutItem} {st1 : StreamState}
    (h : feedFragment st bytes = FeedStep.cont out st1) : allUnfinished out := by
  simp only [feedFragment] at h
  cases hd : utf8Decode bytes with
  | none =>
    simp only [hd, FeedStep.cont.injEq] at h
    obtain ⟨h1, -⟩ := h
    subst h1
    intro x hx
    simp at hx
  | some s =>
    rw [hd] at h
    exact feedChars_cont_out h

theorem feedFragment_stop_out {st : StreamState} {bytes : List Nat}
    {out : List OutItem} {st1 : StreamState}
    (h : feedFragment st bytes = FeedStep.stop out st1) :
    ∃ pre, out = pre ++ [Except.ok (mkFinalChunk st1.acc)] ∧ allUnfinished pre := by
  simp only [feedFragment] at h
  cases hd : utf8Decode bytes with
  | none => rw [hd] at h; exact FeedStep.noConfusion h
  | some s =>
    rw [hd] at h
    exact feedChars_stop_out h

/-- Master output-shape invariant of the transport loop: with no early stop
every sent item is an intermediate chunk; a sentinel stop ends in exactly one
terminal chunk; a transport-error stop ends in exactly one failure result. -/
theorem feedFrags_shape (fs : List (Except Unit (List Nat))) :
    ∀ st : StreamState,
      ((feedFrags st fs).stop = none → allUnfinished (feedFrags st fs).out) ∧
      ((feedFrags st fs).stop = some StopKind.sentinel →
        ∃ pre, (feedFrags st fs).out =
            pre ++ [Except.ok (mkFinalChunk (feedFrags st fs).st.acc)] ∧
          allUnfinished pre) ∧
      ((feedFrags st fs).stop = some StopKind.transportError →
        ∃ pre, (feedFrags st fs).out = pre ++ [Except.error ()] ∧
          allUnfinished pre) := by
  induction fs with
  | nil =>
    intro st
    refine ⟨fun _ => ?_, fun h => ?_, fun h => ?_⟩
    · intro x hx; simp [feedFrags] at hx
    · simp [feedFrags] at h
    · simp [feedFrags] at h
  | cons f rest ih =>
    intro st
    cases f with
    | error e =>
      refine ⟨fun h => ?_, fun h => ?_, fun _ => ?_⟩
      · simp [feedFrags] at h
      · simp [feedFrags] at h
      · exact ⟨[], rfl, by intro x hx; simp at hx⟩
    | ok bytes =>
      cases hf : feedFragment st bytes with
      | cont o st1 =>
        have hout : allUnfinished o := feedFragment_cont_out hf
        have hrw : feedFrags st (Except.ok bytes :: rest) =
            ⟨o ++ (feedFrags st1 rest).out, (feedFrags st1 rest).st,
             (feedFrags st1 rest).stop⟩ := by
          simp [feedFrags, hf]
        refine ⟨fun h => ?_, fun h => ?_, fun h => ?_⟩
        · rw [hrw] at h ⊢
          exact allUnfinished_append hout ((ih st1).1 h)
        · rw [hrw] at h ⊢
          obtain ⟨pre, hpre, hall⟩ := (ih st1).2.1 h
          exact ⟨o ++ pre, by simp only [hpre, List.append_assoc],
            allUnfinished_append hout hall⟩
        · rw [hrw] at h ⊢
          obtain ⟨pre, hpre, hall⟩ := (ih st1).2.2 h
          exact ⟨o ++ pre, by simp only [hpre, List.append_assoc],
            allUnfinished_append hout hall⟩
      | stop o st1 =>
        have hrw : feedFrags st (Except.ok bytes :: rest) =
            ⟨o, st1, some StopKind.sentinel⟩ := by
          simp [feedFrags, hf]
        refine ⟨fun h => ?_, fun h => ?_, fun h => ?_⟩
        · rw [hrw] at h; exact Option.noConfusion h
        · rw [hrw]
          exact feedFragment_stop_out hf
        · rw [hrw] at h
          simp at h

/-! ## Composition lemmas (splitting the input) -/

theorem processLines_append (l1 : List (List Char)) :
    ∀ (st : AccState) (l2 : List (List Char)),
      processLines st (l1 ++ l2) =
        match processLines st l1 with
        | LineStep.cont o s =>
          (match processLines s l2 with
           | LineStep.cont o2 s2 => LineStep.cont (o ++ o2) s2
           | LineStep.stop o2 s2 => LineStep.stop (o ++ o2) s2)
        | LineStep.stop o s => LineStep.stop o s := by
  induction l1 with
  | nil =>
    intro st l2
    cases hp : processLines st l2 <;> simp [processLines, hp]
  | cons l ls ih =>
    intro st l2
    cases hl : handleLine st l with
    | cont o s =>
      simp only [List.cons_append, processLines, hl, List.append_eq]
      rw [ih s l2]
      cases hps : processLines s ls with
      | cont o2 s2 =>
        simp only [hps]
        cases hq : processLines s2 l2 with
        | cont o3 s3 => simp [hq, List.append_assoc]
        | stop o3 s3 => simp [hq, List.append_assoc]
      | stop o2 s2 => simp [hps]
    | stop o s =>
      simp only [List.cons_append, processLines, hl]

theorem extractLines_append_fst (a b : List Char) :
    (extractLines (a ++ b)).1 =
      (extractLines a).1 ++ (extractLines ((extractLines a).2 ++ b)).1 := by
  rw [extractLines_append]

theorem extractLines_append_snd (a b : List Char) :
    (extractLines (a ++ b)).2 =
      (extractLines ((extractLines a).2 ++ b)).2 := by
  rw [extractLines_append]

theorem feedChars_append (st : StreamState) (s1 s2 : List Char) :
    feedChars st (s1 ++ s2) =
      match feedChars st s1 with
      | FeedStep.cont o st1 =>
        (match feedChars st1 s2 with
         | FeedStep.cont o2 st2 => FeedStep.cont (o ++ o2) st2
         | FeedStep.stop o2 st2 => FeedStep.stop (o ++ o2) st2)
      | FeedStep.stop o st1 => FeedStep.stop o st1 := by
  simp only [feedChars]
  rw [show st.buffer ++ (s1 ++ s2) = (st.buffer ++ s1) ++ s2 from
        (List.append_assoc _ _ _).symm,
      extractLines_append_fst (st.buffer ++ s1) s2,
      extractLines_append_snd (st.buffer ++ s1) s2,
      processLines_append]
  cases hp : processLines st.acc (extractLines (st.buffer ++ s1)).1 with
  | cont o acc1 =>
    simp only [hp]
    cases hq : processLines acc1
        (extractLines ((extractLines (st.buffer ++ s1)).2 ++ s2)).1 with
    | cont o2 acc2 => simp only [hq]
    | stop o2 acc2 => simp only [hq]
  | stop o acc1 => simp only [hp]

theorem feedFrags_append (f1 : List (Except Unit (List Nat))) :
    ∀ (st : StreamState) (f2 : List (Except Unit (List Nat))),
      feedFrags st (f1 ++ f2) =
        match (feedFrags st f1).stop with
        | none =>
          ⟨(feedFrags st f1).out ++ (feedFrags (feedFrags st f1).st f2).out,
           (feedFrags (feedFrags st f1).st f2).st,
           (feedFrags (feedFrags st f1).st f2).stop⟩
        | some _ => feedFrags st f1 := by
  induction f1 with
  | nil => intro st f2; simp [feedFrags]
  | cons f rest ih =>
    intro st f2
    cases f with
    | error e => simp [feedFrags]
    | ok bytes =>
      cases hf : feedFragment st bytes with
      | cont o st1 =>
        simp only [List.cons_append, feedFrags, hf, List.append_eq]
        rw [ih st1 f2]
        cases hs : (feedFrags st1 rest).stop with
        | none => simp [hs, List.append_assoc]
        | some k => simp [hs]
      | stop o st1 =>
        simp only [List.cons_append, feedFrags, hf]

/-- Two adjacent individually-valid-UTF-8 `Ok` fragments behave exactly like
their concatenation. -/
theorem feedFrags_merge_ok {a b : List Nat} {x y : List Char}
    (ha : utf8Decode a = some x) (hb : utf8Decode b = some y)
    (st : StreamState) (rest : List (Except Unit (List Nat))) :
    feedFrags st (Except.ok a :: Except.ok b :: rest) =
      feedFrags st (Except.ok (a ++ b) :: rest) := by
  have hab : utf8Decode (a ++ b) = some (x ++ y) := utf8Decode_append_valid ha hb
  simp only [feedFrags, feedFragment, ha, hb, hab, feedChars_append st x y]
  cases h1 : feedChars st x with
  | cont o st1 =>
    simp only [h1]
    cases h2 : feedChars st1 y with
    | cont o2 st2 => simp [h2, List.append_assoc]
    | stop o2 st2 => simp [h2]
  | stop o st1 => simp [h1]

theorem feedFrags_flatten_cons (rest : List (List Nat)) :
    ∀ (c : List Nat) (st : StreamState),
      (∀ f ∈ c :: rest, (utf8Decode f).isSome = true) →
      feedFrags st ((c :: rest).map Except.ok) =
        feedFrags st [Except.ok (c :: rest).flatten] := by
  induction rest with
  | nil => intro c st _; simp
  | cons c2 rest2 ih =>
    intro c st hv
    obtain ⟨x, hx⟩ := Option.isSome_iff_exists.mp (hv c (by simp))
    obtain ⟨y, hy⟩ := Option.isSome_iff_exists.mp (hv c2 (by simp))
    have step := feedFrags_merge_ok hx hy st ((c2 :: rest2).map Except.ok).tail
    simp only [List.map_cons, List.tail_cons] at step ⊢
    rw [step]
    have hv2 : ∀ f ∈ (c ++ c2) :: rest2, (utf8Decode f).isSome = true := by
      intro f hf
      rcases List.mem_cons.mp hf with h | h
      · subst h
        rw [utf8Decode_append_valid hx hy]
        rfl
      · exact hv f (by simp [h])
    have := ih (c ++ c2) st hv2
    simp only [List.map_cons] at this
    rw [this]
    simp [List.append_assoc]

/-! ## Lemmas about the tool-call accumulator -/

theorem mergeDelta_no_index (l : List OpenRouterStreamingToolCall)
    (d : OpenRouterDeltaToolCall) (h : d.index = none) :
    mergeDelta l d = l := by
  simp only [mergeDelta, h]

theorem mergeDelta_length (l : List OpenRouterStreamingToolCall)
    (d : OpenRouterDeltaToolCall) (i : Nat) (h : d.index = some i) :
    (mergeDelta l d).length = max l.length (i + 1) := by
  simp only [mergeDelta, h]
  rw [List.length_set, List.length_append, List.length_replicate]
  omega

theorem mergeDelta_getD_ne (l : List OpenRouterStreamingToolCall)
    (d : OpenRouterDeltaToolCall) (i : Nat) (h : d.index = some i)
    (j : Nat) (hj : j ≠ i) :
    (mergeDelta l d).getD j defaultStreamingToolCall =
      l.getD j defaultStreamingToolCall := by
  simp only [mergeDelta, h]
  have key : ∀ (m : List OpenRouterStreamingToolCall),
      m.getD j defaultStreamingToolCall = m[j]?.getD defaultStreamingToolCall :=
    fun m => List.getD_eq_getElem?_getD m j defaultStreamingToolCall
  rw [key, key, List.getElem?_set_ne (by omega), List.getElem?_append]
  by_cases hlt : j < l.length
  · rw [if_pos hlt]
  · rw [if_neg hlt, List.getElem?_replicate,
        List.getElem?_eq_none (l := l) (by omega)]
    by_cases hrep : j - l.length < i + 1 - l.length
    · rw [if_pos hrep]
      rfl
    · rw [if_neg hrep]

/-! ## Small helper lemmas for the claim theorems -/

theorem parse_eq_of_stop_none {frags : List (Except Unit (List Nat))}
    (h : (feedFrags initState frags).stop = none) :
    parse_streaming_response frags =
      (feedFrags initState frags).out ++
        [Except.ok (mkFinalChunk (feedFrags initState frags).st.acc)] := by
  simp only [parse_streaming_response, h]

theorem parse_eq_of_stop_some {frags : List (Except Unit (List Nat))}
    {k : StopKind} (h : (feedFrags initState frags).stop = some k) :
    parse_streaming_response frags = (feedFrags initState frags).out := by
  simp only [parse_streaming_response, h]

theorem countFinished_append (a b : List OutItem) :
    countFinished (a ++ b) = countFinished a + countFinished b := by
  simp [countFinished, List.filter_append]

theorem countErrors_append (a b : List OutItem) :
    countErrors (a ++ b) = countErrors a + countErrors b := by
  simp [countErrors, List.filter_append]

theorem countFinished_terminal (st : AccState) :
    countFinished [Except.ok (mkFinalChunk st)] = 1 := rfl

/-- A run over error-free fragments never stops with a transport error. -/
theorem feedFrags_no_error (fs : List (Except Unit (List Nat))) :
    ∀ st : StreamState, (∀ f ∈ fs, f.isOk = true) →
      (feedFrags st fs).stop ≠ some StopKind.transportError := by
  induction fs with
  | nil => intro st _ h; simp [feedFrags] at h
  | cons f rest ih =>
    intro st hok
    cases f with
    | error e =>
      intro _h
      have hbad := hok (Except.error e) (List.mem_cons_self _ _)
      exact Bool.noConfusion hbad
    | ok bytes =>
      cases hf : feedFragment st bytes with
      | cont o st1 =>
        intro h
        simp only [feedFrags, hf] at h
        exact ih st1 (fun f hf2 => hok f (by simp [hf2])) h
      | stop o st1 =>
        intro h
        simp only [feedFrags, hf] at h
        exact StopKind.noConfusion (Option.some.inj h)

/-! ## Concrete wire inputs used in scenarios and witnesses -/

/-- UTF-8 bytes of an ASCII string. -/
def asciiBytes (s : List Char) : List Nat := s.map Char.toNat

/-- The bytes of one sentinel line `data: [DONE]\n`. -/
def sentinelLineBytes : List Nat := asciiBytes ("data: [DONE]\n".toList)

/-- One content line whose JSON string holds the two-byte character `é`. -/
def accentLine : List Nat :=
  asciiBytes ("data: \x7b\"choices\":[\x7b\"delta\":\x7b\"content\":\"".toList) ++
  [0xC3, 0xA9] ++ asciiBytes ("\"\x7d\x7d]\x7d\n".toList)

/-- `accentLine` cut right between the two bytes of `é`. -/
def accentA : List Nat := accentLine.take 40

/-- The rest of `accentLine` after the cut. -/
def accentB : List Nat := accentLine.drop 40

/-- A simple single-content-line stream (with trailing newline). -/
def helloLineBytes : List Nat :=
  asciiBytes ("data: \x7b\"choices\":[\x7b\"delta\":\x7b\"content\":\"Hi\"\x7d\x7d]\x7d\n".toList)

/-- Tool-call deltas for position 1 first, then position 0, then the
sentinel. -/
def outOfOrderBytes : List Nat :=
  asciiBytes (("data: \x7b\"choices\":[\x7b\"delta\":\x7b\"tool_calls\":[\x7b\"index\":1,\"id\":\"b\",\"function\":\x7b\"name\":\"g\",\"arguments\":\"2\"\x7d\x7d]\x7d\x7d]\x7d\n" ++
    "data: \x7b\"choices\":[\x7b\"delta\":\x7b\"tool_calls\":[\x7b\"index\":0,\"id\":\"a\",\"function\":\x7b\"name\":\"f\",\"arguments\":\"1\"\x7d\x7d]\x7d\x7d]\x7d\n" ++
    "data: [DONE]\n").toList)

/-- Usage snapshot `(5,5,10)` then `(7,7,14)`, then the sentinel. -/
def usageTwiceBytes : List Nat :=
  asciiBytes (("data: \x7b\"choices\":[],\"usage\":\x7b\"prompt_tokens\":5,\"completion_tokens\":5,\"total_tokens\":10\x7d\x7d\n" ++
    "data: \x7b\"choices\":[],\"usage\":\x7b\"prompt_tokens\":7,\"completion_tokens\":7,\"total_tokens\":14\x7d\x7d\n" ++
    "data: [DONE]\n").toList)

/-- A malformed `data:` line followed by a valid content line. -/
def badThenGoodBytes : List Nat :=
  asciiBytes (("data: \x7bbad\n" ++
    "data: \x7b\"choices\":[\x7b\"delta\":\x7b\"content\":\"ok\"\x7d\x7d]\x7d\n").toList)

/-! ## Claim C1 -/

/-- C1, counterexample: on a pure transport error the delivered output is the
single failure result and *zero* chunks have `finished = true`, refuting
"exactly one chunk in the output sequence has finished=true … whether
termination is triggered by the sentinel, a transport error, or an
unexpected end-of-stream". -/
theorem c1_single_terminal_counterexample :
    countFinished (parse_streaming_response [Except.error ()]) = 0 ∧
      parse_streaming_response [Except.error ()] = [Except.error ()] :=
  ⟨rfl, rfl⟩

/-- C1, amended: when no transport error occurs, exactly one delivered chunk
has `finished = true` and it is the last item; when a transport read error is
reached, the decoder instead delivers the pending intermediate chunks
followed by a single failure result, and no chunk has `finished = true`. -/
theorem c1_single_terminal_amended :
    (∀ frags : List (Except Unit (List Nat)),
      (∀ f ∈ frags, f.isOk = true) →
      countFinished (parse_streaming_response frags) = 1 ∧
      ∃ pre ch, parse_streaming_response frags = pre ++ [Except.ok ch] ∧
        ch.finished = true ∧ countFinished pre = 0) ∧
    (∀ frags1 frags2 : List (Except Unit (List Nat)),
      (feedFrags initState frags1).stop = none →
      countFinished
          (parse_streaming_response (frags1 ++ Except.error () :: frags2)) = 0 ∧
      parse_streaming_response (frags1 ++ Except.error () :: frags2) =
        (feedFrags initState frags1).out ++ [Except.error ()]) := by
  constructor
  · intro frags hok
    cases hstop : (feedFrags initState frags).stop with
    | none =>
      have hall := (feedFrags_shape frags initState).1 hstop
      rw [parse_eq_of_stop_none hstop]
      refine ⟨?_, (feedFrags initState frags).out, mkFinalChunk _, rfl, rfl,
        allUnfinished_countFinished hall⟩
      rw [countFinished_append, allUnfinished_countFinished hall,
        countFinished_terminal]
    | some k =>
      cases k with
      | transportError => exact absurd hstop (feedFrags_no_error frags initState hok)
      | sentinel =>
        obtain ⟨pre, hpre, hall⟩ := (feedFrags_shape frags initState).2.1 hstop
        rw [parse_eq_of_stop_some hstop, hpre]
        refine ⟨?_, pre, mkFinalChunk _, rfl, rfl,
          allUnfinished_countFinished hall⟩
        rw [countFinished_append, allUnfinished_countFinished hall,
          countFinished_terminal]
  · intro frags1 frags2 hstop
    have happ := feedFrags_append frags1 initState (Except.error () :: frags2)
    simp only [hstop] at happ
    have hr2 : feedFrags (feedFrags initState frags1).st
        (Except.error () :: frags2) =
        ⟨[Except.error ()], (feedFrags initState frags1).st,
         some StopKind.transportError⟩ := rfl
    rw [hr2] at happ
    have hstop2 : (feedFrags initState
        (frags1 ++ Except.error () :: frags2)).stop =
        some StopKind.transportError := by rw [happ]
    have hout : (feedFrags initState (frags1 ++ Except.error () :: frags2)).out =
        (feedFrags initState frags1).out ++ [Except.error ()] := by rw [happ]
    have hall := (feedFrags_shape frags1 initState).1 hstop
    rw [parse_eq_of_stop_some hstop2, hout]
    refine ⟨?_, rfl⟩
    rw [countFinished_append, allUnfinished_countFinished hall]
    rfl

/-- Witness for C1 (amended): both parts applied at concrete inputs. -/
theorem c1_single_terminal_amended_witness :
    ((∀ f ∈ ([Except.ok helloLineBytes] : List (Except Unit (List Nat))),
        f.isOk = true) ∧
      (countFinished (parse_streaming_response [Except.ok helloLineBytes]) = 1 ∧
       ∃ pre ch, parse_streaming_response [Except.ok helloLineBytes] =
           pre ++ [Except.ok ch] ∧ ch.finished = true ∧ countFinished pre = 0)) ∧
    ((feedFrags initState []).stop = none ∧
      (countFinished (parse_streaming_response
          ([] ++ Except.error () :: [])) = 0 ∧
       parse_streaming_response ([] ++ Except.error () :: []) =
         (feedFrags initState []).out ++ [Except.error ()])) :=
  ⟨⟨by decide, c1_single_terminal_amended.1 [Except.ok helloLineBytes]
      (by decide)⟩,
   ⟨rfl, c1_single_terminal_amended.2 [] [] rfl⟩⟩

/-! ## Claim C2 -/

/-- One sentinel fragment fed from an empty buffer stops the stream with the
terminal chunk of the current accumulator state. -/
theorem feedFrags_sentinel_step (st : StreamState) (hbuf : st.buffer = []) :
    feedFrags st [Except.ok sentinelLineBytes] =
      ⟨[Except.ok (mkFinalChunk st.acc)], ⟨[], st.acc⟩,
       some StopKind.sentinel⟩ := by
  obtain ⟨buf, acc⟩ := st
  simp only at hbuf
  subst hbuf
  rfl

/-- C2: if the transport ends (no sentinel seen, no transport error), the
decoder still emits the terminal chunk — empty content, `finished = true`,
the finalized tool calls, the latest usage snapshot — and it is literally the
chunk the sentinel branch would have emitted: appending an explicit sentinel
fragment to the input changes nothing about the delivered output. -/
theorem c2_eos_terminal_chunk :
    ∀ frags : List (Except Unit (List Nat)),
      (feedFrags initState frags).stop = none →
      (parse_streaming_response frags =
        (feedFrags initState frags).out ++
          [Except.ok
            ⟨[], true,
             (if (feedFrags initState frags).st.acc.current_tool_calls.isEmpty
              then none
              else some ((feedFrags initState frags).st.acc.current_tool_calls.filterMap
                OpenRouterStreamingToolCall.to_tool_call)),
             (feedFrags initState frags).st.acc.accumulated_usage⟩]) ∧
      ((feedFrags initState frags).st.buffer = [] →
        parse_streaming_response (frags ++ [Except.ok sentinelLineBytes]) =
          parse_streaming_response frags) := by
  intro frags hstop
  constructor
  · rw [parse_eq_of_stop_none hstop]
    rfl
  · intro hbuf
    have happ := feedFrags_append frags initState [Except.ok sentinelLineBytes]
    simp only [hstop] at happ
    rw [feedFrags_sentinel_step _ hbuf] at happ
    have hstop2 : (feedFrags initState
        (frags ++ [Except.ok sentinelLineBytes])).stop =
        some StopKind.sentinel := by rw [happ]
    rw [parse_eq_of_stop_some hstop2, happ, parse_eq_of_stop_none hstop]

/-- Witness for C2 at a concrete content-line stream. -/
theorem c2_eos_terminal_chunk_witness :
    (feedFrags initState [Except.ok helloLineBytes]).stop = none ∧
    (feedFrags initState [Except.ok helloLineBytes]).st.buffer = [] ∧
    (parse_streaming_response [Except.ok helloLineBytes] =
      (feedFrags initState [Except.ok helloLineBytes]).out ++
        [Except.ok
          ⟨[], true,
           (if (feedFrags initState [Except.ok helloLineBytes]).st.acc.current_tool_calls.isEmpty
            then none
            else some ((feedFrags initState [Except.ok helloLineBytes]).st.acc.current_tool_calls.filterMap
              OpenRouterStreamingToolCall.to_tool_call)),
           (feedFrags initState [Except.ok helloLineBytes]).st.acc.accumulated_usage⟩]) ∧
    (parse_streaming_response ([Except.ok helloLineBytes] ++
        [Except.ok sentinelLineBytes]) =
      parse_streaming_response [Except.ok helloLineBytes]) :=
  ⟨rfl, rfl, (c2_eos_terminal_chunk [Except.ok helloLineBytes] rfl).1,
   (c2_eos_terminal_chunk [Except.ok helloLineBytes] rfl).2 rfl⟩

/-! ## Claim C3 -/

/-- C3, counterexample: delivering the same bytes as two fragments cut inside
the UTF-8 encoding of `é` drops both halves (each is invalid UTF-8 on its
own), so the content chunk is lost and the output differs from the
single-fragment delivery. -/
theorem c3_split_invariance_counterexample :
    parse_streaming_response [Except.ok accentA, Except.ok accentB] ≠
      parse_streaming_response [Except.ok (accentA ++ accentB)] := by
  intro h
  have h1 : (parse_streaming_response
      [Except.ok accentA, Except.ok accentB]).length = 1 := rfl
  have h2 : (parse_streaming_response
      [Except.ok (accentA ++ accentB)]).length = 2 := rfl
  rw [h, h2] at h1
  exact absurd h1 (by omega)

/-- C3, amended: split-invariance holds whenever every delivered fragment is
itself valid UTF-8 (equivalently, the cuts fall on character boundaries):
decoding the fragments one by one yields exactly the output of decoding
their concatenation as a single fragment. -/
theorem c3_split_invariance_amended :
    ∀ chunks : List (List Nat),
      (∀ c ∈ chunks, (utf8Decode c).isSome = true) →
      parse_streaming_response (chunks.map Except.ok) =
        parse_streaming_response [Except.ok chunks.flatten] := by
  intro chunks hv
  cases chunks with
  | nil => rfl
  | cons c rest =>
    simp only [parse_streaming_response]
    rw [feedFrags_flatten_cons rest c initState hv]

/-- Witness for C3 (amended): a content line split at a character boundary. -/
theorem c3_split_invariance_amended_witness :
    (∀ c ∈ [helloLineBytes.take 10, helloLineBytes.drop 10],
      (utf8Decode c).isSome = true) ∧
    parse_streaming_response
        ([helloLineBytes.take 10, helloLineBytes.drop 10].map Except.ok) =
      parse_streaming_response
        [Except.ok ([helloLineBytes.take 10, helloLineBytes.drop 10].flatten)] :=
  ⟨by decide,
   c3_split_invariance_amended [helloLineBytes.take 10, helloLineBytes.drop 10]
     (by decide)⟩

/-! ## Claim C4 -/

/-- C4: a fragment is finalized into a tool call exactly when both id and
name are present; the accumulated argument text is then parsed as JSON with
`null` substituted on parse failure (last conjunct: a concrete
malformed-arguments fragment is still surfaced, with null arguments);
fragments missing id or name yield `none` and are therefore excluded by the
`filter_map` with no error. -/
theorem c4_finalize_tool_calls :
    (∀ (tc : OpenRouterStreamingToolCall) (i n : List Char),
      tc.id = some i → tc.name = some n →
      tc.to_tool_call =
        some ⟨i, n, (parseJson tc.arguments).getD Json.null⟩) ∧
    (∀ tc : OpenRouterStreamingToolCall,
      tc.id = none ∨ tc.name = none → tc.to_tool_call = none) ∧
    (OpenRouterStreamingToolCall.to_tool_call
        ⟨some ("a".toList), some ("f".toList), "not json".toList⟩ =
      some ⟨"a".toList, "f".toList, Json.null⟩) := by
  refine ⟨?_, ?_, rfl⟩
  · intro tc i n h1 h2
    simp [OpenRouterStreamingToolCall.to_tool_call, h1, h2]
  · intro tc h
    rcases h with h | h
    · simp [OpenRouterStreamingToolCall.to_tool_call, h]
    · cases hid : tc.id <;>
        simp [OpenRouterStreamingToolCall.to_tool_call, hid, h]

/-- Witness for C4: a complete fragment converts (with parsed arguments), a
fragment without id is dropped. -/
theorem c4_finalize_tool_calls_witness :
    ((⟨some ("a".toList), some ("f".toList), "1".toList⟩ :
        OpenRouterStreamingToolCall).id = some ("a".toList)) ∧
    (OpenRouterStreamingToolCall.to_tool_call
        ⟨some ("a".toList), some ("f".toList), "1".toList⟩ =
      some ⟨"a".toList, "f".toList, Json.numI 1⟩) ∧
    (OpenRouterStreamingToolCall.to_tool_call
        ⟨none, some ("f".toList), "1".toList⟩ = none) :=
  ⟨rfl,
   c4_finalize_tool_calls.1
     ⟨some ("a".toList), some ("f".toList), "1".toList⟩
     ("a".toList) ("f".toList) rfl rfl,
   c4_finalize_tool_calls.2.1 ⟨none, some ("f".toList), "1".toList⟩
     (Or.inl rfl)⟩

/-! ## Claim C5 -/

/-- C5: merging a delta at position `i` grows the fragment vector to exactly
`max (length) (i + 1)` (dense, gaps filled with default fragments — positions
other than `i` read back unchanged, out-of-range reads giving the default
empty fragment); and concretely, deltas for position 1 then position 0
finalize into two tool calls with position 0 populated correctly despite
arriving second. -/
theorem c5_dense_out_of_order_merge :
    (∀ (l : List OpenRouterStreamingToolCall) (d : OpenRouterDeltaToolCall)
      (i : Nat), d.index = some i →
      (mergeDelta l d).length = max l.length (i + 1) ∧
      (∀ j, j ≠ i →
        (mergeDelta l d).getD j defaultStreamingToolCall =
          l.getD j defaultStreamingToolCall)) ∧
    (parse_streaming_response [Except.ok outOfOrderBytes] =
      [Except.ok ⟨[], true,
        some [⟨"a".toList, "f".toList, Json.numI 1⟩,
              ⟨"b".toList, "g".toList, Json.numI 2⟩], none⟩]) := by
  refine ⟨fun l d i h =>
    ⟨mergeDelta_length l d i h, fun j hj => mergeDelta_getD_ne l d i h j hj⟩,
    rfl⟩

/-- Witness for C5: the general merge facts at a concrete position-1 delta
over the empty vector. -/
theorem c5_dense_out_of_order_merge_witness :
    ((⟨some 1, some ("b".toList),
        some ⟨some ("g".toList), some ("2".toList)⟩⟩ :
        OpenRouterDeltaToolCall).index = some 1) ∧
    ((mergeDelta ([] : List OpenRouterStreamingToolCall)
        ⟨some 1, some ("b".toList),
         some ⟨some ("g".toList), some ("2".toList)⟩⟩).length =
      max ([] : List OpenRouterStreamingToolCall).length (1 + 1) ∧
     (∀ j, j ≠ 1 →
       (mergeDelta ([] : List OpenRouterStreamingToolCall)
          ⟨some 1, some ("b".toList),
           some ⟨some ("g".toList), some ("2".toList)⟩⟩).getD j
          defaultStreamingToolCall =
        ([] : List OpenRouterStreamingToolCall).getD j
          defaultStreamingToolCall)) :=
  ⟨rfl, c5_dense_out_of_order_merge.1 []
    ⟨some 1, some ("b".toList), some ⟨some ("g".toList), some ("2".toList)⟩⟩
    1 rfl⟩

/-! ## Claim C6 -/

/-- C6: the usage snapshot is last-wins — any usage field observed in a delta
event replaces the stored snapshot outright; and concretely, snapshots
`(5,5,10)` then `(7,7,14)` make the terminal chunk report `(7,7,14)`, not a
sum. -/
theorem c6_usage_last_wins :
    (∀ (st : AccState) (ev : OpenRouterStreamChunk) (u : Usage),
      ev.usage = some u →
      (handleEvent st ev).2.accumulated_usage = some u) ∧
    (parse_streaming_response [Except.ok usageTwiceBytes] =
      [Except.ok ⟨[], true, none, some ⟨7, 7, 14⟩⟩]) := by
  refine ⟨fun st ev u h => ?_, rfl⟩
  simp [handleEvent, h]

/-- Witness for C6: replacing an existing `(5,5,10)` snapshot with
`(7,7,14)`. -/
theorem c6_usage_last_wins_witness :
    ((⟨[], some ⟨7, 7, 14⟩⟩ : OpenRouterStreamChunk).usage =
      some ⟨7, 7, 14⟩) ∧
    (handleEvent ⟨some ⟨5, 5, 10⟩, []⟩
        ⟨[], some ⟨7, 7, 14⟩⟩).2.accumulated_usage = some ⟨7, 7, 14⟩ :=
  ⟨rfl, c6_usage_last_wins.1 ⟨some ⟨5, 5, 10⟩, []⟩ ⟨[], some ⟨7, 7, 14⟩⟩
    ⟨7, 7, 14⟩ rfl⟩

/-! ## Claim C7 -/

/-- C7: a `data: ` line whose payload fails to parse is skipped — no output
item, no state change — and concretely a malformed line followed by a valid
content line still yields that line's content chunk and the terminal
chunk. -/
theorem c7_malformed_line_skipped :
    (∀ (st : AccState) (line data : List Char),
      trimWs line = 'd' :: 'a' :: 't' :: 'a' :: ':' :: ' ' :: data →
      data ≠ doneMark →
      parseStreamChunk data = none →
      handleLine st line = LineStep.cont [] st) ∧
    (parse_streaming_response [Except.ok badThenGoodBytes] =
      [Except.ok ⟨"ok".toList, false, none, none⟩,
       Except.ok ⟨[], true, none, none⟩]) := by
  constructor
  · intro st line data htrim hne hparse
    simp only [handleLine, htrim]
    rw [if_neg (by simp)]
    simp only [stripDataTag]
    rw [if_neg hne]
    simp only [hparse]
  · rfl

/-- Witness for C7: a concrete unparsable payload is skipped without state
change. -/
theorem c7_malformed_line_skipped_witness :
    (trimWs ("data: nope".toList) =
      'd' :: 'a' :: 't' :: 'a' :: ':' :: ' ' :: ("nope".toList)) ∧
    ("nope".toList ≠ doneMark) ∧
    (parseStreamChunk ("nope".toList) = none) ∧
    (handleLine ⟨none, []⟩ ("data: nope".toList) =
      LineStep.cont [] ⟨none, []⟩) :=
  ⟨rfl, by decide, rfl,
   c7_malformed_line_skipped.1 ⟨none, []⟩ ("data: nope".toList)
     ("nope".toList) rfl (by decide) rfl⟩

/-! ## Claim C8 -/

/-- C8: on a transport read error the decoder sends the failure result (not a
chunk) exactly once, after the intermediate chunks already delivered; it
stops reading (anything after the error never affects the output); and the
run ends in the transport-error state. -/
theorem c8_transport_error_terminates :
    ∀ frags1 frags2 : List (Except Unit (List Nat)),
      (feedFrags initState frags1).stop = none →
      (parse_streaming_response (frags1 ++ Except.error () :: frags2) =
        (feedFrags initState frags1).out ++ [Except.error ()]) ∧
      countErrors
        (parse_streaming_response (frags1 ++ Except.error () :: frags2)) = 1 ∧
      ((feedFrags initState (frags1 ++ Except.error () :: frags2)).stop =
        some StopKind.transportError) ∧
      (∀ frags3,
        parse_streaming_response (frags1 ++ Except.error () :: frags3) =
          (feedFrags initState frags1).out ++ [Except.error ()]) := by
  intro frags1 frags2 hstop
  have hall := (feedFrags_shape frags1 initState).1 hstop
  have key : ∀ f2 : List (Except Unit (List Nat)),
      feedFrags initState (frags1 ++ Except.error () :: f2) =
        ⟨(feedFrags initState frags1).out ++ [Except.error ()],
         (feedFrags initState frags1).st, some StopKind.transportError⟩ := by
    intro f2
    have happ := feedFrags_append frags1 initState (Except.error () :: f2)
    simp only [hstop] at happ
    have hr2 : feedFrags (feedFrags initState frags1).st
        (Except.error () :: f2) =
        ⟨[Except.error ()], (feedFrags initState frags1).st,
         some StopKind.transportError⟩ := rfl
    rw [hr2] at happ
    exact happ
  have hout : ∀ f2 : List (Except Unit (List Nat)),
      parse_streaming_response (frags1 ++ Except.error () :: f2) =
        (feedFrags initState frags1).out ++ [Except.error ()] := by
    intro f2
    have hstop3 : (feedFrags initState
        (frags1 ++ Except.error () :: f2)).stop =
        some StopKind.transportError := by rw [key f2]
    rw [parse_eq_of_stop_some hstop3, key f2]
  refine ⟨hout frags2, ?_, by rw [key frags2], hout⟩
  rw [hout frags2, countErrors_append, allUnfinished_countErrors hall]
  rfl

/-- Witness for C8: a content line, then a transport error, then a fragment
that is never read. -/
theorem c8_transport_error_terminates_witness :
    (feedFrags initState [Except.ok helloLineBytes]).stop = none ∧
    ((parse_streaming_response
        ([Except.ok helloLineBytes] ++ Except.error () :: [Except.ok [65]]) =
      (feedFrags initState [Except.ok helloLineBytes]).out ++
        [Except.error ()]) ∧
     countErrors (parse_streaming_response
        ([Except.ok helloLineBytes] ++ Except.error () :: [Except.ok [65]])) = 1 ∧
     ((feedFrags initState ([Except.ok helloLineBytes] ++
        Except.error () :: [Except.ok [65]])).stop =
       some StopKind.transportError) ∧
     (∀ frags3,
       parse_streaming_response
          ([Except.ok helloLineBytes] ++ Except.error () :: frags3) =
         (feedFrags initState [Except.ok helloLineBytes]).out ++
           [Except.error ()])) :=
  ⟨rfl, c8_transport_error_terminates [Except.ok helloLineBytes]
    [Except.ok [65]] rfl⟩

/-! ## Claim C9 -/

/-- C9: a byte fragment that is not valid UTF-8 is dropped in its entirety —
the run continues exactly as if the fragment had never arrived — so no
decoding failure ever terminates the stream or reaches the consumer. -/
theorem c9_invalid_utf8_fragment_dropped :
    (∀ (st : StreamState) (bad : List Nat)
      (rest : List (Except Unit (List Nat))),
      utf8Decode bad = none →
      feedFrags st (Except.ok bad :: rest) = feedFrags st rest) ∧
    (∀ (bad : List Nat) (rest : List (Except Unit (List Nat))),
      utf8Decode bad = none →
      parse_streaming_response (Except.ok bad :: rest) =
        parse_streaming_response rest) := by
  have part1 : ∀ (st : StreamState) (bad : List Nat)
      (rest : List (Except Unit (List Nat))),
      utf8Decode bad = none →
      feedFrags st (Except.ok bad :: rest) = feedFrags st rest := by
    intro st bad rest h
    simp [feedFrags, feedFragment, h]
  exact ⟨part1, fun bad rest h => by
    simp only [parse_streaming_response, part1 initState bad rest h]⟩

/-- Witness for C9: the lone byte `0xFF` is never valid UTF-8; a fragment
holding it is a no-op. -/
theorem c9_invalid_utf8_fragment_dropped_witness :
    utf8Decode [0xFF] = none ∧
    parse_streaming_response [Except.ok [0xFF]] =
      parse_streaming_response [] :=
  ⟨rfl, c9_invalid_utf8_fragment_dropped.2 [0xFF] [] rfl⟩

/-! ## Claim C10 -/

/-- C10: a tool-call delta whose `index` field is absent is ignored entirely
— it creates no fragment and modifies none — whatever id, name or argument
text it carries (last conjunct: a concrete indexless delta carrying all
three is a no-op on the empty vector). -/
theorem c10_indexless_delta_ignored :
    (∀ (l : List OpenRouterStreamingToolCall) (d : OpenRouterDeltaToolCall),
      d.index = none → mergeDelta l d = l) ∧
    (mergeDelta []
      ⟨none, some ("x".toList),
       some ⟨some ("f".toList), some ("1".toList)⟩⟩ = []) :=
  ⟨fun l d h => mergeDelta_no_index l d h, rfl⟩

/-- Witness for C10: an indexless delta carrying id, name and arguments
leaves a non-empty vector untouched. -/
theorem c10_indexless_delta_ignored_witness :
    ((⟨none, some ("x".toList),
        some ⟨some ("f".toList), some ("1".toList)⟩⟩ :
        OpenRouterDeltaToolCall).index = none) ∧
    (mergeDelta [defaultStreamingToolCall]
      ⟨none, some ("x".toList),
       some ⟨some ("f".toList), some ("1".toList)⟩⟩ =
      [defaultStreamingToolCall]) :=
  ⟨rfl, c10_indexless_delta_ignored.1 [defaultStreamingToolCall]
    ⟨none, some ("x".toList), some ⟨some ("f".toList), some ("1".toList)⟩⟩
    rfl⟩

end G3.OpenRouter
